import Mathlib

/-!
Shallow embedding of the Wox KillProcess plugin core (src/src/main.py and
src/src/process_name_resolver.py): the process snapshot cache, the query
filter/score path, the tracked-result reconciliation pass, and the
friendly-name resolver with its fallback tiers.  Python strings are modelled
as Lean `String`, Python dicts as association lists with first-key overwrite
semantics, raised exceptions as `Except Unit` values, and the platform /
host environment as explicit records of oracles.
-/

/-- ASCII lowercasing of one character, modelling Python `str.lower` on the
ASCII range. -/
def lowerChar (c : Char) : Char :=
  if 65 ≤ c.toNat ∧ c.toNat ≤ 90 then Char.ofNat (c.toNat + 32) else c

/-- Python `s.lower()`. -/
def lowerStr (s : String) : String :=
  String.mk (s.toList.map lowerChar)

/-- Contiguous-sublist test on character lists (nonempty-needle case of
Python `needle in hay`). -/
def listContains (needle : List Char) : List Char → Bool
  | [] => false
  | c :: rest => needle.isPrefixOf (c :: rest) || listContains needle rest

/-- Python string containment `needle in hay` (the empty needle is contained
in every string). -/
def pyIn (needle hay : String) : Bool :=
  needle == "" || listContains needle.toList hay.toList

/-- First index at which `needle` occurs in the character list, if any. -/
def findSub (needle : List Char) : List Char → Option Nat
  | [] => if needle.isEmpty then some 0 else none
  | c :: rest =>
    if needle.isPrefixOf (c :: rest) then some 0
    else (findSub needle rest).map (· + 1)

/-- Python `hay.find(needle)`, with `none` for the -1 (absent) case. -/
def pyFind (hay needle : String) : Option Nat :=
  findSub needle.toList hay.toList

/-- Python `v or dflt` on strings: the empty string is falsy. -/
def pyOrStr (v dflt : String) : String :=
  if v = "" then dflt else v

/-- Python truthiness filter on an optional string: `None` and `""` are
falsy. -/
def pyTruthy (v : Option String) : Option String :=
  match v with
  | some s => if s = "" then none else some s
  | none => none

/-- `MyPlugin._format_app_path`: on Darwin, truncate the executable path at
the first `.app` occurrence (inclusive); otherwise, and for the empty path,
return the path unchanged. -/
def formatAppPath (isDarwin : Bool) (exe_path : String) : String :=
  if exe_path = "" then exe_path
  else if isDarwin then
    match pyFind exe_path ".app" with
    | some i => String.mk (exe_path.toList.take (i + 4))
    | none => exe_path
  else exe_path

/-- `ProcessInfo` dataclass of main.py (memory in megabytes, kept as an
exact rational `rss / 2^20`). -/
structure ProcessInfo where
  pid : Nat
  name : String
  exe_path : String
  username : String
  memory_mb : ℚ
  friendly_name : String
deriving DecidableEq

/-- The psutil per-process exception kinds caught by the refresh loop. -/
inductive ProcError
  | noSuchProcess
  | accessDenied
  | zombieProcess
deriving DecidableEq

/-- One entry yielded by `psutil.process_iter` together with the outcomes of
the per-process inspections `_refresh_processes` performs on it.  `err` set
means inspecting the process raised one of the caught psutil errors;
`memRaises` / `exeRaises` mean reading the memory field / calling `exe()`
raised; `none` values model Python `None` results. -/
structure RawProcEntry where
  pid : Nat
  name : String
  username : Option String
  err : Option ProcError
  memRaises : Bool
  memory_info : Option Nat
  exeRaises : Bool
  exeVal : Option String
deriving DecidableEq

/-- The `ProcessInfo` record `_refresh_processes` builds for a
non-erroring entry, given the friendly-name resolution `resolve`. -/
def buildRecord (resolve : Nat → String) (e : RawProcEntry) : ProcessInfo :=
  { pid := e.pid
    name := e.name
    exe_path := if e.exeRaises then "" else (e.exeVal).getD ""
    username :=
      match e.username with
      | some s => pyOrStr s "N/A"
      | none => "N/A"
    memory_mb :=
      if e.memRaises then 0
      else
        match e.memory_info with
        | some rss => (rss : ℚ) / (1024 * 1024)
        | none => 0
    friendly_name := resolve e.pid }

/-- Insert into a Python-style dict held as an association list: overwrite
the first binding of the key in place, else append. -/
def dinsert {κ α : Type} [DecidableEq κ] (k : κ) (v : α) : List (κ × α) → List (κ × α)
  | [] => [(k, v)]
  | (k', v') :: rest =>
    if k = k' then (k, v) :: rest else (k', v') :: dinsert k v rest

/-- Python dict lookup `d.get(k)`. -/
def dlookup {κ α : Type} [DecidableEq κ] (k : κ) : List (κ × α) → Option α
  | [] => none
  | (k', v) :: rest => if k = k' then some v else dlookup k rest

/-- Python `d.pop(k, None)`: drop the first binding of the key. -/
def dpop {κ α : Type} [DecidableEq κ] (k : κ) : List (κ × α) → List (κ × α)
  | [] => []
  | (k', v) :: rest => if k = k' then rest else (k', v) :: dpop k rest

/-- The snapshot `MyPlugin._processes`: pid → ProcessInfo. -/
abbrev Snapshot := List (Nat × ProcessInfo)

/-- The record-building loop of `_refresh_processes`, with the dict built
so far as accumulator: erroring entries are skipped, the rest inserted. -/
def refreshAux (resolve : Nat → String) (acc : Snapshot) : List RawProcEntry → Snapshot
  | [] => acc
  | e :: rest =>
    match e.err with
    | some _ => refreshAux resolve acc rest
    | none => refreshAux resolve (dinsert e.pid (buildRecord resolve e) acc) rest

/-- The new snapshot one refresh tick builds from the enumerated entries. -/
def refreshProcesses (resolve : Nat → String) (entries : List RawProcEntry) : Snapshot :=
  refreshAux resolve [] entries

/-- The fields of a `Result` built by `MyPlugin.query` that do not depend on
the host translation service: the arguments fed into the title template, the
subtitle, the icon path, the score, and the pid carried by the kill action. -/
structure ResultView where
  title_friendly : String
  title_pid : Nat
  sub_title : String
  icon_path : String
  score : Nat
  action_pid : Nat
deriving DecidableEq

/-- The lowered search term `query.search.lower() if query.search else ""`. -/
def searchTermOf (s : String) : String :=
  if s = "" then "" else lowerStr s

/-- The filter condition of `MyPlugin.query`: skip the record when the search
term is nonempty and occurs in none of lowered raw name, lowered friendly
name, lowered executable path. -/
def skipProc (st : String) (p : ProcessInfo) : Bool :=
  !(st == "") && !(pyIn st (lowerStr p.name)) && !(pyIn st (lowerStr p.friendly_name))
    && !(pyIn st (lowerStr p.exe_path))

/-- The `Result` record `MyPlugin.query` builds for a surviving process
(given the already-lowered search term `st`). -/
def buildResult (isDarwin : Bool) (st : String) (pid : Nat) (p : ProcessInfo) : ResultView :=
  let exec_path := pyOrStr (formatAppPath isDarwin p.exe_path) p.name
  { title_friendly := p.friendly_name
    title_pid := pid
    sub_title := exec_path
    icon_path := exec_path
    score :=
      if !(st == "") && (pyIn st (lowerStr p.name) || pyIn st (lowerStr p.friendly_name))
      then 100 else 50
    action_pid := pid }

/-- `MyPlugin.query`: filter the snapshot by the lowered search term and
build one result per surviving record, in snapshot order. -/
def queryResults (isDarwin : Bool) (search : String) (snap : Snapshot) : List ResultView :=
  let st := searchTermOf search
  snap.filterMap fun pp =>
    if skipProc st pp.2 then none else some (buildResult isDarwin st pp.1 pp.2)

/-- `MyPlugin._tracked_results`: result id → tracked pid. -/
abbrev Tracker := List (String × Nat)

/-- Outcome of the host interaction for one tracked result id during
reconciliation: `get_updatable_result` may raise or return `None`;
`update_result` may raise, return `False`, or succeed. -/
inductive HostOutcome
  | raiseAtGet
  | notVisible
  | raiseAtUpdate
  | updateFail
  | ok
deriving DecidableEq

/-- The `to_remove` list `_update_tracked_results` collects: ids whose pid is
absent from the snapshot, plus ids whose host interaction did not end in a
successful update. -/
def reconcileRemovals (snap : Snapshot) (host : String → HostOutcome) (tracker : Tracker) :
    List String :=
  tracker.filterMap fun rp =>
    match dlookup rp.2 snap with
    | none => some rp.1
    | some _ =>
      match host rp.1 with
      | HostOutcome.ok => none
      | _ => some rp.1

/-- `MyPlugin._update_tracked_results`: collect `to_remove`, then pop each
collected id from the tracker. -/
def updateTrackedResults (snap : Snapshot) (host : String → HostOutcome) (tracker : Tracker) :
    Tracker :=
  (reconcileRemovals snap host tracker).foldl (fun t rid => dpop rid t) tracker

/-- Well-formedness of a Python dict rendered as an association list: its
keys are distinct. -/
abbrev keysNodup {κ α : Type} (l : List (κ × α)) : Prop :=
  (l.map Prod.fst).Nodup

/-- `platform.system()` outcomes the resolver branches on. -/
inductive SysType
  | darwin
  | linuxOS
  | other
deriving DecidableEq

/-- The psutil process handle as seen by the resolver: the pid and the
outcomes of the calls it may make (`as_dict(attrs=["name"])["name"]`,
`name()`, `exe()`), each of which may raise. -/
structure ProcHandle where
  pid : Nat
  asDictName : Except Unit String
  nameCall : Except Unit String
  exeCall : Except Unit String

/-- The two dictionaries a macOS bundle exposes, each optionally absent
(falsy), holding the optional CFBundleDisplayName and CFBundleName values. -/
structure BundleDicts where
  localizedInfo : Option (Option String × Option String)
  infoDict : Option (Option String × Option String)

/-- The macOS side of the environment: whether the AppKit classes imported,
the running-application registry (pid, localizedName) which may raise when
enumerated, and the bundle metadata lookup by path, which may raise or find
no bundle. -/
structure MacEnv where
  appkitAvailable : Bool
  runningApps : Except Unit (List (Nat × Option String))
  bundleWithURL : String → Except Unit (Option BundleDicts)

/-- Name extraction from a pair of bundle-dictionary fields: Python
`d.get("CFBundleDisplayName") or d.get("CFBundleName")` with truthiness. -/
def bundleDictName (d : Option (Option String × Option String)) : Option String :=
  match d with
  | some (dn, n) => (pyTruthy dn).orElse fun _ => pyTruthy n
  | none => none

/-- `ProcessNameResolver._get_macos_app_name_from_bundle`: `None` when the
AppKit classes are unavailable, the bundle lookup raises (caught) or finds
nothing; else the localized dictionary name, falling back to the plain
info-dictionary name. -/
def getMacAppNameFromBundle (env : MacEnv) (app_path : String) : Option String :=
  if !env.appkitAvailable then none
  else
    match env.bundleWithURL app_path with
    | Except.error _ => none
    | Except.ok none => none
    | Except.ok (some b) =>
      match bundleDictName b.localizedInfo with
      | some s => some s
      | none => bundleDictName b.infoDict

/-- The running-applications scan of `_get_macos_friendly_name`: the first
application whose process identifier matches and whose localized name is
truthy. -/
def findLocalized (pid : Nat) : List (Nat × Option String) → Option String
  | [] => none
  | (p, nm) :: rest =>
    if p = pid then
      match pyTruthy nm with
      | some s => some s
      | none => findLocalized pid rest
    else findLocalized pid rest

/-- `ProcessNameResolver._get_macos_friendly_name`: registry scan first,
then the bundle of the truncated executable path; every raise degrades to
`default_name`. -/
def getMacosFriendlyName (env : MacEnv) (h : ProcHandle) (default_name : String) : String :=
  if !env.appkitAvailable then default_name
  else
    match env.runningApps with
    | Except.error _ => default_name
    | Except.ok apps =>
      match findLocalized h.pid apps with
      | some nm => nm
      | none =>
        match h.exeCall with
        | Except.error _ => default_name
        | Except.ok exe_path =>
          if pyIn ".app" exe_path then
            match pyFind exe_path ".app" with
            | some i =>
              match getMacAppNameFromBundle env (String.mk (exe_path.toList.take (i + 4))) with
              | some bn => bn
              | none => default_name
            | none => default_name
          else default_name

/-- One file of a desktop-entry directory: its file name and its content,
whose read may raise (caught per file). -/
structure DesktopFile where
  fname : String
  content : Except Unit String

/-- The Linux side of the environment: directory listing, which may raise
(and then aborts the whole tier). -/
structure LinuxEnv where
  listDir : String → Except Unit (List DesktopFile)

/-- The three desktop-entry directories scanned, in code order. -/
def desktopDirs : List String :=
  ["/usr/share/applications/", "/usr/local/share/applications/",
   "~/.local/share/applications/"]

/-- Python `os.path.basename` on a POSIX path. -/
def basename (s : String) : String :=
  String.mk ((s.toList.reverse.takeWhile (· ≠ '/')).reverse)

/-- Python whitespace for `str.strip`. -/
def isSpaceChar (c : Char) : Bool :=
  c = ' ' || c = '\t' || c = '\n' || c = '\r' || c = '\x0b' || c = '\x0c'

/-- Python `s.strip()`. -/
def pyStrip (s : String) : String :=
  String.mk (((s.toList.dropWhile isSpaceChar).reverse.dropWhile isSpaceChar).reverse)

/-- Python `content.split("\n")` on a character list. -/
def splitLines : List Char → List (List Char)
  | [] => [[]]
  | c :: rest =>
    let r := splitLines rest
    if c = '\n' then [] :: r
    else
      match r with
      | [] => [[c]]
      | l :: ls => (c :: l) :: ls

/-- Scan the lines of a desktop file for the first `Name=` line and return
its stripped value. -/
def findNameLine : List (List Char) → Option String
  | [] => none
  | l :: ls =>
    if ("Name=".toList).isPrefixOf l then some (pyStrip (String.mk (l.drop 5)))
    else findNameLine ls

/-- The per-file body of `_get_linux_friendly_name`: if the executable base
name occurs in the content, the first `Name=` value, else nothing. -/
def desktopFileNameFor (exe_name content : String) : Option String :=
  if pyIn exe_name content then findNameLine (splitLines content.toList)
  else none

/-- Python `s.endswith(suf)`. -/
def strEndsWith (s suf : String) : Bool :=
  (suf.toList.reverse).isPrefixOf (s.toList.reverse)

/-- The file loop over one directory listing: skip non-desktop files, skip
files whose read raises, return the first extracted name. -/
def scanFiles (exe_name : String) : List DesktopFile → Option String
  | [] => none
  | f :: fs =>
    if strEndsWith f.fname ".desktop" then
      match f.content with
      | Except.error _ => scanFiles exe_name fs
      | Except.ok content =>
        match desktopFileNameFor exe_name content with
        | some nm => some nm
        | none => scanFiles exe_name fs
    else scanFiles exe_name fs

/-- The directory loop of `_get_linux_friendly_name`: a raising `listdir`
escapes to the tier's outer handler (modelled as `Except.error`). -/
def scanDirsRes (env : LinuxEnv) (exe_name : String) : List String → Except Unit (Option String)
  | [] => Except.ok none
  | d :: ds =>
    match env.listDir d with
    | Except.error _ => Except.error ()
    | Except.ok files =>
      match scanFiles exe_name files with
      | some nm => Except.ok (some nm)
      | none => scanDirsRes env exe_name ds

/-- `ProcessNameResolver._get_linux_friendly_name`: desktop-entry scan for
the executable base name; any raise degrades to `default_name`. -/
def getLinuxFriendlyName (env : LinuxEnv) (h : ProcHandle) (default_name : String) : String :=
  match h.exeCall with
  | Except.error _ => default_name
  | Except.ok exe_path =>
    match scanDirsRes env (basename exe_path) desktopDirs with
    | Except.error _ => default_name
    | Except.ok (some nm) => nm
    | Except.ok none => default_name

/-- The full environment the resolver runs against. -/
structure ResolveEnv where
  system : SysType
  mac : MacEnv
  linux : LinuxEnv

/-- `ProcessNameResolver.get_friendly_name`: platform dispatch on the
`as_dict` name, with the outer handler falling back to `proc.name()` and
then to the constant. -/
def get_friendly_name (env : ResolveEnv) (h : ProcHandle) : String :=
  match h.asDictName with
  | Except.ok default_name =>
    match env.system with
    | SysType.darwin => getMacosFriendlyName env.mac h default_name
    | SysType.linuxOS => getLinuxFriendlyName env.linux h default_name
    | SysType.other => default_name
  | Except.error _ =>
    match h.nameCall with
    | Except.ok n => n
    | Except.error _ => "Unknown Process"

/-- The resolver's `_cache` field: pid → (friendly name, written-at time),
with `_cache_expiration = 60` seconds. -/
abbrev NameCache := List (Nat × String × Nat)

/-- The resolver method viewed as a state transformer over its `_cache`
field at time `now`: the method body of `get_friendly_name` neither reads
nor writes `self._cache`, so the state passes through unchanged and the
result is recomputed from the environment on every call. -/
def get_friendly_name_cached (env : ResolveEnv) (h : ProcHandle) (cache : NameCache)
    (_now : Nat) : String × NameCache :=
  (get_friendly_name env h, cache)

/-- The observable steps of one `_refresh_processes` tick, for reasoning
about what happens while the `asyncio.Lock` is held. -/
inductive RefreshEv
  | acquire
  | release
  | swap
  | resolveName (pid : Nat)
  | hostGet (rid : String)
  | hostUpdate (rid : String)
deriving DecidableEq

/-- The friendly-name resolution calls issued while building the new
snapshot, one per non-erroring enumerated entry, in order. -/
def buildPhaseEvents (entries : List RawProcEntry) : List RefreshEv :=
  entries.filterMap fun e =>
    if e.err = none then some (RefreshEv.resolveName e.pid) else none

/-- The host calls `_update_tracked_results` issues: a get per tracked
result whose pid is live, followed by an update unless the get raised or
returned `None`. -/
def reconcileEvents (snap : Snapshot) (host : String → HostOutcome) : Tracker → List RefreshEv
  | [] => []
  | rp :: rest =>
    (match dlookup rp.2 snap with
     | none => []
     | some _ =>
       match host rp.1 with
       | HostOutcome.raiseAtGet => [RefreshEv.hostGet rp.1]
       | HostOutcome.notVisible => [RefreshEv.hostGet rp.1]
       | _ => [RefreshEv.hostGet rp.1, RefreshEv.hostUpdate rp.1]) ++
      reconcileEvents snap host rest

/-- The event trace of one `_refresh_processes` tick: the `async with
self._lock` block encloses the record-build loop, the snapshot swap, and the
reconciliation host calls. -/
def refreshTickTrace (resolve : Nat → String) (entries : List RawProcEntry)
    (host : String → HostOutcome) (tracker : Tracker) : List RefreshEv :=
  RefreshEv.acquire ::
    (buildPhaseEvents entries ++
      RefreshEv.swap ::
        (reconcileEvents (refreshProcesses resolve entries) host tracker ++
          [RefreshEv.release]))

/-- Mark each event of a trace with whether the lock is held when it
happens (the acquire and release events carry the state just before them). -/
def markHeld (held : Bool) : List RefreshEv → List (RefreshEv × Bool)
  | [] => []
  | e :: rest =>
    match e with
    | RefreshEv.acquire => (e, held) :: markHeld true rest
    | RefreshEv.release => (e, held) :: markHeld false rest
    | _ => (e, held) :: markHeld held rest

/-- Lock marking of a trace that starts with the lock free. -/
def lockMarks (tr : List RefreshEv) : List (RefreshEv × Bool) :=
  markHeld false tr

/-- Events that are potentially slow I/O: name resolution and the two host
calls. -/
def isSlowIOEv : RefreshEv → Bool
  | RefreshEv.resolveName _ => true
  | RefreshEv.hostGet _ => true
  | RefreshEv.hostUpdate _ => true
  | _ => false

/-- Events that are work of the tick (everything but the lock operations
themselves). -/
def isWorkEv : RefreshEv → Bool
  | RefreshEv.acquire => false
  | RefreshEv.release => false
  | _ => true

/-- An internal error in the platform-specific tier selected by the
environment: on Darwin, enumerating the running applications raises; on
Linux, the `exe()` call raises or listing the first desktop-entry directory
raises; on other systems there is no platform tier. -/
def platformTierErrs (env : ResolveEnv) (h : ProcHandle) : Prop :=
  match env.system with
  | SysType.darwin => env.mac.runningApps = Except.error ()
  | SysType.linuxOS =>
    h.exeCall = Except.error () ∨
      env.linux.listDir "/usr/share/applications/" = Except.error ()
  | SysType.other => True

/-! ### Concrete fixtures -/

/-- A Chrome-like process record. -/
def chromeRec : ProcessInfo :=
  { pid := 1, name := "Chrome",
    exe_path := "/Applications/Google Chrome.app/Contents/MacOS/Google Chrome",
    username := "alice", memory_mb := 100, friendly_name := "Google Chrome" }

/-- An sshd-like process record. -/
def sshdRec : ProcessInfo :=
  { pid := 2, name := "sshd", exe_path := "/usr/sbin/sshd", username := "root",
    memory_mb := 10, friendly_name := "sshd" }

/-- The scoring scenario snapshot of the spec: Chrome and sshd. -/
def chromeSnap : Snapshot := [(1, chromeRec), (2, sshdRec)]

/-- The end-to-end Finder record of the spec. -/
def finderRec : ProcessInfo :=
  { pid := 100, name := "Finder",
    exe_path := "/System/Library/CoreServices/Finder.app/Contents/MacOS/Finder",
    username := "alice", memory_mb := 50, friendly_name := "Finder" }

/-- A well-behaved enumeration entry. -/
def okEntry : RawProcEntry :=
  { pid := 1, name := "Chrome", username := some "alice", err := none,
    memRaises := false, memory_info := none, exeRaises := false,
    exeVal := some "/usr/bin/chrome" }

/-- A second well-behaved enumeration entry. -/
def okEntry2 : RawProcEntry :=
  { pid := 2, name := "sshd", username := some "root", err := none,
    memRaises := false, memory_info := none, exeRaises := false,
    exeVal := some "/usr/sbin/sshd" }

/-- An entry whose inspection raises NoSuchProcess. -/
def badEntry : RawProcEntry :=
  { pid := 5, name := "ghost", username := none,
    err := some ProcError.noSuchProcess, memRaises := false,
    memory_info := none, exeRaises := false, exeVal := none }

/-- An entry whose memory-field read raises. -/
def memErrEntry : RawProcEntry :=
  { pid := 9, name := "memhog", username := some "bob", err := none,
    memRaises := true, memory_info := some 4096, exeRaises := false,
    exeVal := some "/bin/memhog" }

/-- A one-process snapshot holding the Chrome record under pid 1. -/
def sampleSnap : Snapshot := [(1, chromeRec)]

/-- A tracker holding one live and one dead pid. -/
def sampleTracker : Tracker := [("a", 1), ("b", 2)]

/-- A host on which every call succeeds. -/
def hostOkFn : String → HostOutcome := fun _ => HostOutcome.ok

/-- A constant friendly-name resolution. -/
def constResolve : Nat → String := fun _ => "Friendly"

/-- A macOS environment with no AppKit available. -/
def plainMac : MacEnv :=
  { appkitAvailable := false, runningApps := Except.ok [],
    bundleWithURL := fun _ => Except.ok none }

/-- A Linux environment whose desktop directories are empty. -/
def plainLinux : LinuxEnv := { listDir := fun _ => Except.ok [] }

/-- A non-Darwin, non-Linux resolver environment. -/
def otherEnv : ResolveEnv :=
  { system := SysType.other, mac := plainMac, linux := plainLinux }

/-- A Darwin environment whose running-application enumeration raises. -/
def macErrEnv : ResolveEnv :=
  { system := SysType.darwin,
    mac := { appkitAvailable := true, runningApps := Except.error (),
             bundleWithURL := fun _ => Except.ok none },
    linux := plainLinux }

/-- A handle on which every call raises. -/
def failHandle : ProcHandle :=
  { pid := 1, asDictName := Except.error (), nameCall := Except.error (),
    exeCall := Except.error () }

/-- A handle whose `as_dict` raises but whose `name()` call succeeds. -/
def rawHandle : ProcHandle :=
  { pid := 1, asDictName := Except.error (), nameCall := Except.ok "rawproc",
    exeCall := Except.error () }

/-- A handle whose `as_dict` succeeds while `exe()` raises. -/
def tierHandle : ProcHandle :=
  { pid := 1, asDictName := Except.ok "procname", nameCall := Except.ok "procname",
    exeCall := Except.error () }

/-- A handle for pid 7 that resolves to the name FreshName. -/
def freshHandle : ProcHandle :=
  { pid := 7, asDictName := Except.ok "FreshName", nameCall := Except.ok "FreshName",
    exeCall := Except.ok "" }

/-- A cache that already holds a friendly name for pid 7, written at second
50 (so still inside the 60-second TTL at second 60). -/
def preloadedCache : NameCache := [(7, ("CachedName", 50))]

/-! ### Helper lemmas -/

theorem lowerStr_eq_empty_iff (s : String) : lowerStr s = "" ↔ s = "" := by
  constructor
  · intro h
    have hd : (lowerStr s).data = ("" : String).data := by rw [h]
    simp only [lowerStr, String.toList] at hd
    have : s.data = [] := by
      have := List.map_eq_nil_iff.mp hd
      exact this
    exact String.ext_iff.mpr this
  · intro h
    subst h
    rfl

theorem searchTermOf_eq_lower (s : String) : searchTermOf s = lowerStr s := by
  unfold searchTermOf
  split
  · rename_i h
    subst h
    rfl
  · rfl

theorem searchTermOf_eq_empty_iff (s : String) : searchTermOf s = "" ↔ s = "" := by
  rw [searchTermOf_eq_lower]
  exact lowerStr_eq_empty_iff s

theorem dlookup_dinsert_self {κ α : Type} [DecidableEq κ] (k : κ) (v : α)
    (d : List (κ × α)) : dlookup k (dinsert k v d) = some v := by
  induction d with
  | nil => simp [dinsert, dlookup]
  | cons hd tl ih =>
    obtain ⟨k', v'⟩ := hd
    by_cases h : k = k'
    · subst h
      simp [dinsert, dlookup]
    · simp [dinsert, dlookup, h, ih]

theorem dlookup_dinsert_ne {κ α : Type} [DecidableEq κ] {k k' : κ} (v : α)
    (d : List (κ × α)) (h : k ≠ k') : dlookup k (dinsert k' v d) = dlookup k d := by
  induction d with
  | nil => simp [dinsert, dlookup, h]
  | cons hd tl ih =>
    obtain ⟨k'', v''⟩ := hd
    by_cases h2 : k' = k''
    · subst h2
      simp [dinsert, dlookup, h]
    · by_cases h3 : k = k''
      · subst h3
        simp [dinsert, dlookup, h2]
      · simp [dinsert, dlookup, h2, h3, ih]

theorem mem_dpop {κ α : Type} [DecidableEq κ] {x : κ × α} {k : κ}
    {l : List (κ × α)} (h : x ∈ dpop k l) : x ∈ l := by
  induction l with
  | nil => simpa [dpop] using h
  | cons hd tl ih =>
    obtain ⟨k', v'⟩ := hd
    by_cases h2 : k = k'
    · subst h2
      simp only [dpop, if_pos rfl] at h
      exact List.mem_cons_of_mem _ h
    · simp only [dpop, if_neg h2] at h
      rcases List.mem_cons.mp h with h3 | h3
      · exact h3 ▸ List.mem_cons_self _ _
      · exact List.mem_cons_of_mem _ (ih h3)

theorem keysNodup_dpop {κ α : Type} [DecidableEq κ] {k : κ} {l : List (κ × α)}
    (h : keysNodup l) : keysNodup (dpop k l) := by
  induction l with
  | nil => simpa [dpop] using h
  | cons hd tl ih =>
    obtain ⟨k', v'⟩ := hd
    simp only [keysNodup, List.map_cons, List.nodup_cons] at h
    by_cases h2 : k = k'
    · subst h2
      simpa [dpop, keysNodup] using h.2
    · simp only [dpop, if_neg h2, keysNodup, List.map_cons, List.nodup_cons]
      refine ⟨fun hmem => ?_, ih h.2⟩
      have : k' ∈ tl.map Prod.fst := by
        rcases List.mem_map.mp hmem with ⟨x, hx, hx2⟩
        exact List.mem_map.mpr ⟨x, mem_dpop hx, hx2⟩
      exact h.1 this

theorem not_mem_dpop_self {κ α : Type} [DecidableEq κ] {k : κ} {v : α}
    {l : List (κ × α)} (h : keysNodup l) : (k, v) ∉ dpop k l := by
  induction l with
  | nil => simp [dpop]
  | cons hd tl ih =>
    obtain ⟨k', v'⟩ := hd
    simp only [keysNodup, List.map_cons, List.nodup_cons] at h
    by_cases h2 : k = k'
    · subst h2
      simp only [dpop, if_pos rfl]
      intro hmem
      exact h.1 (List.mem_map.mpr ⟨(k, v), hmem, rfl⟩)
    · simp only [dpop, if_neg h2, List.mem_cons]
      rintro (h3 | h3)
      · exact h2 (congrArg Prod.fst h3)
      · exact ih h.2 h3

theorem foldl_dpop_mem {κ α : Type} [DecidableEq κ] {x : κ × α}
    (rids : List κ) (l : List (κ × α))
    (h : x ∈ rids.foldl (fun t rid => dpop rid t) l) : x ∈ l := by
  induction rids generalizing l with
  | nil => simpa using h
  | cons r rest ih =>
    simp only [List.foldl_cons] at h
    exact mem_dpop (ih (dpop r l) h)

theorem foldl_dpop_keysNodup {κ α : Type} [DecidableEq κ]
    (rids : List κ) (l : List (κ × α)) (h : keysNodup l) :
    keysNodup (rids.foldl (fun t rid => dpop rid t) l) := by
  induction rids generalizing l with
  | nil => simpa using h
  | cons r rest ih =>
    simp only [List.foldl_cons]
    exact ih (dpop r l) (keysNodup_dpop h)

theorem foldl_dpop_not_mem {κ α : Type} [DecidableEq κ] {k : κ} {v : α}
    (rids : List κ) (l : List (κ × α)) (hnd : keysNodup l) (hk : k ∈ rids) :
    (k, v) ∉ rids.foldl (fun t rid => dpop rid t) l := by
  induction rids generalizing l with
  | nil => simp at hk
  | cons r rest ih =>
    simp only [List.foldl_cons]
    rcases List.mem_cons.mp hk with h | h
    · subst h
      intro hmem
      exact not_mem_dpop_self hnd (foldl_dpop_mem rest (dpop k l) hmem)
    · exact ih (dpop r l) (keysNodup_dpop hnd) h

theorem updateTracked_mem {snap : Snapshot} {host : String → HostOutcome}
    {tracker : Tracker} {rid : String} {pid : Nat} (hnd : keysNodup tracker)
    (h : (rid, pid) ∈ updateTrackedResults snap host tracker) :
    (rid, pid) ∈ tracker ∧ rid ∉ reconcileRemovals snap host tracker := by
  refine ⟨foldl_dpop_mem _ _ h, fun hin => ?_⟩
  exact foldl_dpop_not_mem _ _ hnd hin h

theorem updateTracked_live {snap : Snapshot} {host : String → HostOutcome}
    {tracker : Tracker} {rid : String} {pid : Nat} (hnd : keysNodup tracker)
    (h : (rid, pid) ∈ updateTrackedResults snap host tracker) :
    dlookup pid snap ≠ none ∧ host rid = HostOutcome.ok := by
  obtain ⟨hmem, hnr⟩ := updateTracked_mem hnd h
  constructor
  · intro hnone
    apply hnr
    refine List.mem_filterMap.mpr ⟨(rid, pid), hmem, ?_⟩
    simp [hnone]
  · by_contra hne
    apply hnr
    refine List.mem_filterMap.mpr ⟨(rid, pid), hmem, ?_⟩
    cases hh : host rid <;> rcases hlk : dlookup pid snap with _ | p <;> simp_all

theorem refreshAux_append (resolve : Nat → String) (l1 l2 : List RawProcEntry)
    (acc : Snapshot) :
    refreshAux resolve acc (l1 ++ l2) = refreshAux resolve (refreshAux resolve acc l1) l2 := by
  induction l1 generalizing acc with
  | nil => rfl
  | cons e rest ih =>
    cases he : e.err with
    | some k => simp [refreshAux, he, ih]
    | none => simp [refreshAux, he, ih]

theorem refreshAux_lookup_skip (resolve : Nat → String) {k : Nat}
    (l : List RawProcEntry) (acc : Snapshot)
    (h : ∀ x ∈ l, x.err = none → x.pid ≠ k) :
    dlookup k (refreshAux resolve acc l) = dlookup k acc := by
  induction l generalizing acc with
  | nil => rfl
  | cons e rest ih =>
    cases he : e.err with
    | some q =>
      simp only [refreshAux, he]
      exact ih acc fun x hx => h x (List.mem_cons_of_mem _ hx)
    | none =>
      simp only [refreshAux, he]
      rw [ih _ fun x hx => h x (List.mem_cons_of_mem _ hx)]
      exact dlookup_dinsert_ne _ _ fun hkk =>
        h e (List.mem_cons_self _ _) he hkk.symm

theorem findSub_bound {needle hay : List Char} {i : Nat}
    (h : findSub needle hay = some i) : i + needle.length ≤ hay.length := by
  induction hay generalizing i with
  | nil =>
    simp only [findSub] at h
    split at h
    · rename_i hemp
      cases h
      simpa [List.isEmpty_iff.mp hemp] using Nat.le_refl 0
    · cases h
  | cons c rest ih =>
    simp only [findSub] at h
    split at h
    · rename_i hpre
      cases h
      have := (List.isPrefixOf_iff_prefix.mp hpre).length_le
      simpa using this
    · rcases Option.map_eq_some'.mp h with ⟨j, hj, hij⟩
      subst hij
      have := ih hj
      simp only [List.length_cons]
      omega

/-- A trace fragment that contains no lock operations. -/
def noLockOps (l : List RefreshEv) : Prop :=
  ∀ e ∈ l, e ≠ RefreshEv.acquire ∧ e ≠ RefreshEv.release

theorem noLockOps_append {l1 l2 : List RefreshEv} (h1 : noLockOps l1)
    (h2 : noLockOps l2) : noLockOps (l1 ++ l2) := by
  intro e he
  rcases List.mem_append.mp he with h | h
  · exact h1 e h
  · exact h2 e h

theorem noLockOps_buildPhase (entries : List RawProcEntry) :
    noLockOps (buildPhaseEvents entries) := by
  intro e he
  rcases List.mem_filterMap.mp he with ⟨x, _, hf⟩
  split at hf
  · cases hf
    exact ⟨by simp, by simp⟩
  · cases hf

theorem noLockOps_reconcile (snap : Snapshot) (host : String → HostOutcome)
    (tracker : Tracker) : noLockOps (reconcileEvents snap host tracker) := by
  induction tracker with
  | nil => intro e he; cases he
  | cons rp rest ih =>
    simp only [reconcileEvents]
    refine noLockOps_append ?_ ih
    intro e he
    split at he
    · cases he
    · split at he <;>
        simp only [List.mem_cons, List.mem_singleton, List.not_mem_nil, or_false] at he
      · subst he; exact ⟨by simp, by simp⟩
      · subst he; exact ⟨by simp, by simp⟩
      · rcases he with rfl | rfl <;> exact ⟨by simp, by simp⟩

theorem markHeld_of_noLockOps {l : List RefreshEv} (h : noLockOps l) (b : Bool) :
    markHeld b l = l.map (fun e => (e, b)) := by
  induction l with
  | nil => rfl
  | cons e rest ih =>
    have he := h e (List.mem_cons_self _ _)
    have hrest : noLockOps rest := fun x hx => h x (List.mem_cons_of_mem _ hx)
    cases e <;> simp_all [markHeld]

theorem markHeld_append_noLockOps {l1 : List RefreshEv} (l2 : List RefreshEv)
    (h : noLockOps l1) (b : Bool) :
    markHeld b (l1 ++ l2) = l1.map (fun e => (e, b)) ++ markHeld b l2 := by
  induction l1 with
  | nil => rfl
  | cons e rest ih =>
    have he := h e (List.mem_cons_self _ _)
    have hrest : noLockOps rest := fun x hx => h x (List.mem_cons_of_mem _ hx)
    cases e <;> simp_all [markHeld]

theorem skipProc_eq_false_iff (st : String) (p : ProcessInfo) :
    skipProc st p = false ↔
      (st = "" ∨ pyIn st (lowerStr p.name) = true ∨
        pyIn st (lowerStr p.friendly_name) = true ∨
        pyIn st (lowerStr p.exe_path) = true) := by
  cases h1 : (st == "") <;>
    cases h2 : pyIn st (lowerStr p.name) <;>
      cases h3 : pyIn st (lowerStr p.friendly_name) <;>
        cases h4 : pyIn st (lowerStr p.exe_path) <;>
          simp_all [skipProc, beq_iff_eq]

/-! ### Claims -/

/-- C1: After a reconciliation pass completes against a given snapshot,
every tracked result that remains in the tracker has a pid that is a key of
that snapshot, and any tracked result whose pid is absent from the snapshot
has been removed by the end of that pass. -/
theorem C1_reconcile_prunes_dead_pids :
    ∀ (snap : Snapshot) (host : String → HostOutcome) (tracker : Tracker),
      keysNodup tracker →
      (∀ rid pid, (rid, pid) ∈ updateTrackedResults snap host tracker →
        (dlookup pid snap).isSome = true) ∧
      (∀ rid pid, (rid, pid) ∈ tracker → dlookup pid snap = none →
        (rid, pid) ∉ updateTrackedResults snap host tracker) := by
  intro snap host tracker hnd
  constructor
  · intro rid pid h
    exact Option.ne_none_iff_isSome.mp (updateTracked_live hnd h).1
  · intro rid pid _ hnone hin
    exact (updateTracked_live hnd hin).1 hnone

theorem C1_witness :
    keysNodup sampleTracker ∧
    (dlookup 1 sampleSnap).isSome = true ∧
    ("b", 2) ∉ updateTrackedResults sampleSnap hostOkFn sampleTracker :=
  ⟨by decide,
   (C1_reconcile_prunes_dead_pids sampleSnap hostOkFn sampleTracker (by decide)).1
     "a" 1 (by decide),
   (C1_reconcile_prunes_dead_pids sampleSnap hostOkFn sampleTracker (by decide)).2
     "b" 2 (by decide) (by decide)⟩

/-- C2: Every result returned by a query comes from a snapshot record whose
lowered raw name, friendly name, or executable path contains the lowered
search term, or the search term is empty — and with an empty search term
every process of the snapshot is returned. -/
theorem C2_filter_correct :
    ∀ (isDarwin : Bool) (search : String) (snap : Snapshot),
      (∀ r ∈ queryResults isDarwin search snap,
        ∃ pid p, (pid, p) ∈ snap ∧
          r = buildResult isDarwin (searchTermOf search) pid p ∧
          (search = "" ∨ pyIn (lowerStr search) (lowerStr p.name) = true ∨
            pyIn (lowerStr search) (lowerStr p.friendly_name) = true ∨
            pyIn (lowerStr search) (lowerStr p.exe_path) = true)) ∧
      (search = "" → ∀ pid p, (pid, p) ∈ snap →
        buildResult isDarwin "" pid p ∈ queryResults isDarwin search snap) := by
  intro isD search snap
  constructor
  · intro r hr
    simp only [queryResults] at hr
    rcases List.mem_filterMap.mp hr with ⟨pp, hpp, hf⟩
    split at hf
    · cases hf
    · rename_i hskip
      have hskip' : skipProc (searchTermOf search) pp.2 = false :=
        Bool.not_eq_true _ ▸ Bool.of_not_eq_true hskip
      cases hf
      refine ⟨pp.1, pp.2, hpp, rfl, ?_⟩
      have := (skipProc_eq_false_iff _ _).mp hskip'
      rcases this with h | h | h | h
      · exact Or.inl ((searchTermOf_eq_empty_iff search).mp h)
      all_goals rw [searchTermOf_eq_lower] at h
      · exact Or.inr (Or.inl h)
      · exact Or.inr (Or.inr (Or.inl h))
      · exact Or.inr (Or.inr (Or.inr h))
  · intro hempty pid p hmem
    subst hempty
    simp only [queryResults]
    refine List.mem_filterMap.mpr ⟨(pid, p), hmem, ?_⟩
    simp [searchTermOf, skipProc]

theorem C2_witness :
    buildResult false "" 1 chromeRec ∈ queryResults false "" [(1, chromeRec)] :=
  (C2_filter_correct false "" [(1, chromeRec)]).2 rfl 1 chromeRec (by decide)

/-- C3: A returned result scores exactly 100 when the search term is
non-empty and case-insensitively matches the raw or friendly name, and
exactly 50 otherwise; querying chrome over a snapshot holding Chrome
(friendly Google Chrome) and sshd yields score 100 for the Chrome record
and excludes sshd. -/
theorem C3_score_law :
    (∀ (isDarwin : Bool) (search : String) (pid : Nat) (p : ProcessInfo),
      ((buildResult isDarwin (searchTermOf search) pid p).score = 100 ↔
        (search ≠ "" ∧ (pyIn (lowerStr search) (lowerStr p.name) = true ∨
          pyIn (lowerStr search) (lowerStr p.friendly_name) = true))) ∧
      ((buildResult isDarwin (searchTermOf search) pid p).score = 50 ↔
        ¬(search ≠ "" ∧ (pyIn (lowerStr search) (lowerStr p.name) = true ∨
          pyIn (lowerStr search) (lowerStr p.friendly_name) = true)))) ∧
    queryResults false "chrome" chromeSnap = [buildResult false "chrome" 1 chromeRec] ∧
    (buildResult false "chrome" 1 chromeRec).score = 100 := by
  refine ⟨?_, by decide, by decide⟩
  intro isD search pid p
  have key : ((!(searchTermOf search == "") &&
      (pyIn (searchTermOf search) (lowerStr p.name) ||
        pyIn (searchTermOf search) (lowerStr p.friendly_name))) = true) ↔
      (search ≠ "" ∧ (pyIn (lowerStr search) (lowerStr p.name) = true ∨
        pyIn (lowerStr search) (lowerStr p.friendly_name) = true)) := by
    rw [searchTermOf_eq_lower]
    simp only [Bool.and_eq_true, Bool.or_eq_true, Bool.not_eq_true',
      beq_eq_false_iff_ne, ne_eq, lowerStr_eq_empty_iff]
  have hscore : (buildResult isD (searchTermOf search) pid p).score =
      if (!(searchTermOf search == "") &&
        (pyIn (searchTermOf search) (lowerStr p.name) ||
          pyIn (searchTermOf search) (lowerStr p.friendly_name))) then 100 else 50 := by
    simp [buildResult]
  cases hcond : (!(searchTermOf search == "") &&
      (pyIn (searchTermOf search) (lowerStr p.name) ||
        pyIn (searchTermOf search) (lowerStr p.friendly_name))) with
  | true =>
    rw [hcond] at hscore
    simp only [if_true] at hscore
    rw [hscore]
    constructor
    · simp [key.mp hcond]
    · simp [key.mp hcond]
  | false =>
    rw [hcond] at hscore
    simp at hscore
    rw [hscore]
    have hnot : ¬(search ≠ "" ∧ (pyIn (lowerStr search) (lowerStr p.name) = true ∨
        pyIn (lowerStr search) (lowerStr p.friendly_name) = true)) := by
      intro hc
      exact absurd (key.mpr hc) (by simp [hcond])
    constructor
    · simp [hnot]
    · simp [hnot]

/-- C4: The resolver's cache is dead state.  At second 60, ten seconds after
a cache entry for pid 7 was written (well inside the 60-second TTL), a
resolution call for pid 7 recomputes the name from the environment instead
of returning the cached value, and leaves the cache unwritten — the method
body never consults `_cache`. -/
theorem C4_cache_never_consulted :
    get_friendly_name_cached otherEnv freshHandle preloadedCache 60 =
      ("FreshName", preloadedCache) ∧
    dlookup 7 preloadedCache = some ("CachedName", 50) ∧
    "FreshName" ≠ "CachedName" :=
  ⟨rfl, by decide, by decide⟩

/-- C5: Friendly-name resolution is total and degrades through its fallback
tiers: when the `as_dict` read raises it falls back to the raw `name()`
value, when that raises too it returns the constant Unknown Process, and
when the platform-specific tier errs internally it returns the raw
`as_dict` name. -/
theorem C5_resolution_never_fails :
    ∀ (env : ResolveEnv) (h : ProcHandle),
      (h.asDictName = Except.error () → h.nameCall = Except.error () →
        get_friendly_name env h = "Unknown Process") ∧
      (∀ n, h.asDictName = Except.error () → h.nameCall = Except.ok n →
        get_friendly_name env h = n) ∧
      (∀ d, h.asDictName = Except.ok d → platformTierErrs env h →
        get_friendly_name env h = d) := by
  intro env h
  obtain ⟨sys, mac, lin⟩ := env
  refine ⟨?_, ?_, ?_⟩
  · intro h1 h2
    simp [get_friendly_name, h1, h2]
  · intro n h1 h2
    simp [get_friendly_name, h1, h2]
  · intro d h1 h2
    cases sys
    case darwin =>
      have h2' : mac.runningApps = Except.error () := h2
      simp only [get_friendly_name, h1]
      cases hav : mac.appkitAvailable <;>
        simp [getMacosFriendlyName, hav, h2']
    case linuxOS =>
      have h2' : h.exeCall = Except.error () ∨
          lin.listDir "/usr/share/applications/" = Except.error () := h2
      simp only [get_friendly_name, h1]
      rcases h2' with h2' | h2'
      · simp [getLinuxFriendlyName, h2']
      · cases hexe : h.exeCall with
        | error u => simp [getLinuxFriendlyName, hexe]
        | ok exe_path =>
          simp [getLinuxFriendlyName, hexe, scanDirsRes, desktopDirs, h2']
    case other =>
      simp [get_friendly_name, h1]

theorem C5_witness :
    get_friendly_name otherEnv failHandle = "Unknown Process" ∧
    get_friendly_name otherEnv rawHandle = "rawproc" ∧
    get_friendly_name macErrEnv tierHandle = "procname" :=
  ⟨(C5_resolution_never_fails otherEnv failHandle).1 rfl rfl,
   (C5_resolution_never_fails otherEnv rawHandle).2.1 "rawproc" rfl rfl,
   (C5_resolution_never_fails macErrEnv tierHandle).2.2 "procname" rfl rfl⟩

/-- C6: A per-process error (not-found, access-denied, zombie) raised while
inspecting one enumerated entry only removes that entry from the tick's new
snapshot: the snapshot equals the one built from the remaining entries, so
the rest of the batch is unaffected and the refresh completes. -/
theorem C6_per_process_errors_skip_only :
    ∀ (resolve : Nat → String) (pre : List RawProcEntry) (e : RawProcEntry)
      (post : List RawProcEntry),
      e.err ≠ none →
      refreshProcesses resolve (pre ++ e :: post) =
        refreshProcesses resolve (pre ++ post) := by
  intro resolve pre e post herr
  rcases Option.ne_none_iff_exists'.mp herr with ⟨k, hk⟩
  unfold refreshProcesses
  rw [refreshAux_append, refreshAux_append]
  simp [refreshAux, hk]

theorem C6_witness :
    badEntry.err ≠ none ∧
    refreshProcesses constResolve ([okEntry] ++ badEntry :: [okEntry2]) =
      refreshProcesses constResolve ([okEntry] ++ [okEntry2]) :=
  ⟨by decide,
   C6_per_process_errors_skip_only constResolve [okEntry] badEntry [okEntry2]
     (by decide)⟩

/-- C7: With every tracked result reported updatable and every host update
succeeding, running the reconciliation pass twice against the same snapshot
leaves the tracker exactly as after the first pass. -/
theorem C7_reconcile_idempotent :
    ∀ (snap : Snapshot) (host : String → HostOutcome) (tracker : Tracker),
      keysNodup tracker → (∀ rid, host rid = HostOutcome.ok) →
      updateTrackedResults snap host (updateTrackedResults snap host tracker) =
        updateTrackedResults snap host tracker := by
  intro snap host tracker hnd hok
  have hnil : reconcileRemovals snap host (updateTrackedResults snap host tracker) = [] := by
    unfold reconcileRemovals
    rw [List.filterMap_eq_nil_iff]
    intro rp hrp
    obtain ⟨rid, pid⟩ := rp
    have hlive := (updateTracked_live hnd hrp).1
    rcases hlk : dlookup pid snap with _ | p
    · exact absurd hlk hlive
    · simp [hlk, hok rid]
  calc updateTrackedResults snap host (updateTrackedResults snap host tracker)
      = (reconcileRemovals snap host (updateTrackedResults snap host tracker)).foldl
          (fun t rid => dpop rid t) (updateTrackedResults snap host tracker) := rfl
    _ = updateTrackedResults snap host tracker := by
        rw [hnil]
        rfl

theorem C7_witness :
    updateTrackedResults sampleSnap hostOkFn
        (updateTrackedResults sampleSnap hostOkFn sampleTracker) =
      updateTrackedResults sampleSnap hostOkFn sampleTracker :=
  C7_reconcile_idempotent sampleSnap hostOkFn sampleTracker (by decide) fun _ => rfl

/-- C8: On the bundle-based (Darwin) platform, a result whose executable
path contains the bundle marker gets as subtitle the path truncated just
after the first occurrence of the marker; an empty path falls back to the
raw name; and the Finder record yields the truncated Finder.app path
end to end. -/
theorem C8_bundle_subtitle :
    (∀ (st : String) (pid : Nat) (p : ProcessInfo) (i : Nat),
      pyFind p.exe_path ".app" = some i →
      (buildResult true st pid p).sub_title =
        String.mk (p.exe_path.toList.take (i + 4))) ∧
    (∀ (st : String) (pid : Nat) (p : ProcessInfo),
      p.exe_path = "" → (buildResult true st pid p).sub_title = p.name) ∧
    queryResults true "" [(100, finderRec)] = [buildResult true "" 100 finderRec] ∧
    (buildResult true "" 100 finderRec).sub_title =
      "/System/Library/CoreServices/Finder.app" := by
  refine ⟨?_, ?_, by decide, by decide⟩
  · intro st pid p i hfind
    have hfind' : findSub ".app".toList p.exe_path.toList = some i := hfind
    have hbound := findSub_bound hfind'
    have hlen4 : (".app".toList).length = 4 := by decide
    rw [hlen4] at hbound
    have hne : p.exe_path ≠ "" := by
      intro h0
      rw [h0] at hfind
      have : pyFind "" ".app" = (none : Option Nat) := by decide
      rw [this] at hfind
      cases hfind
    have htk : p.exe_path.toList.take (i + 4) ≠ [] := by
      rw [Ne, List.take_eq_nil_iff]
      rintro (h | h)
      · omega
      · rw [h] at hbound
        simp at hbound
    have hmk : String.mk (p.exe_path.toList.take (i + 4)) ≠ "" := by
      intro hh
      exact htk (String.ext_iff.mp hh)
    have hfmt : formatAppPath true p.exe_path =
        String.mk (p.exe_path.toList.take (i + 4)) := by
      simp [formatAppPath, hne, hfind]
    simp [buildResult, hfmt, pyOrStr, hmk]
    intro hh
    exact absurd hh hmk
  · intro st pid p h0
    simp [buildResult, formatAppPath, h0, pyOrStr]

theorem C8_witness :
    pyFind finderRec.exe_path ".app" = some 35 ∧
    (buildResult true "" 100 finderRec).sub_title =
      String.mk (finderRec.exe_path.toList.take 39) :=
  ⟨by decide, C8_bundle_subtitle.1 "" 100 finderRec 35 (by decide)⟩

/-- C9 counterexample: it is not true that name resolution and host update
calls happen outside the lock — in the trace of a concrete refresh tick the
resolution event is marked as occurring while the lock is held. -/
theorem C9_counterexample :
    ¬ (∀ (resolve : Nat → String) (entries : List RawProcEntry)
        (host : String → HostOutcome) (tracker : Tracker)
        (e : RefreshEv) (held : Bool),
        (e, held) ∈ lockMarks (refreshTickTrace resolve entries host tracker) →
        isSlowIOEv e = true → held = false) := by
  intro hcl
  have hmem : (RefreshEv.resolveName 1, true) ∈
      lockMarks (refreshTickTrace constResolve [okEntry] hostOkFn [("r", 1)]) := by
    decide
  have := hcl constResolve [okEntry] hostOkFn [("r", 1)]
    (RefreshEv.resolveName 1) true hmem (by decide)
  exact absurd this (by decide)

/-- C9 (amended): every phase of a refresh tick — record building with name
resolution, the snapshot swap, and the reconciliation host calls — runs
while the shared lock is held; no work event of the tick occurs with the
lock free. -/
theorem C9_tick_runs_under_lock :
    ∀ (resolve : Nat → String) (entries : List RawProcEntry)
      (host : String → HostOutcome) (tracker : Tracker) (e : RefreshEv),
      isWorkEv e = true →
      (e, false) ∉ lockMarks (refreshTickTrace resolve entries host tracker) := by
  intro resolve entries host tracker e hwork hmem
  have hmid : noLockOps (buildPhaseEvents entries ++
      RefreshEv.swap :: reconcileEvents (refreshProcesses resolve entries) host tracker) := by
    refine noLockOps_append (noLockOps_buildPhase entries) ?_
    intro x hx
    rcases List.mem_cons.mp hx with h | h
    · subst h
      exact ⟨by simp, by simp⟩
    · exact noLockOps_reconcile _ host tracker x h
  have hshape : refreshTickTrace resolve entries host tracker =
      RefreshEv.acquire ::
        ((buildPhaseEvents entries ++
          RefreshEv.swap :: reconcileEvents (refreshProcesses resolve entries) host tracker) ++
          [RefreshEv.release]) := by
    simp [refreshTickTrace]
  rw [hshape] at hmem
  simp only [lockMarks, markHeld] at hmem
  rw [markHeld_append_noLockOps _ hmid true] at hmem
  rcases List.mem_cons.mp hmem with h | h
  · have he : e = RefreshEv.acquire := congrArg Prod.fst h
    rw [he] at hwork
    simp [isWorkEv] at hwork
  · rcases List.mem_append.mp h with h2 | h2
    · rcases List.mem_map.mp h2 with ⟨x, _, hx⟩
      have := congrArg Prod.snd hx
      simp at this
    · simp only [markHeld] at h2
      rcases List.mem_cons.mp h2 with h3 | h3
      · have := congrArg Prod.snd h3
        simp at this
      · cases h3

theorem C9_witness :
    isWorkEv RefreshEv.swap = true ∧
    (RefreshEv.swap, false) ∉
      lockMarks (refreshTickTrace constResolve [okEntry] hostOkFn [("r", 1)]) :=
  ⟨by decide,
   C9_tick_runs_under_lock constResolve [okEntry] hostOkFn [("r", 1)]
     RefreshEv.swap (by decide)⟩

/-- C10: When reading a process's memory field raises or the field is
absent, the refresh tick still builds and installs the record for that
process, with the memory value defaulted to zero megabytes. -/
theorem C10_memory_defaults_to_zero :
    ∀ (resolve : Nat → String) (pre : List RawProcEntry) (e : RawProcEntry)
      (post : List RawProcEntry),
      e.err = none →
      (e.memRaises = true ∨ e.memory_info = none) →
      (∀ x ∈ post, x.err = none → x.pid ≠ e.pid) →
      dlookup e.pid (refreshProcesses resolve (pre ++ e :: post)) =
        some (buildRecord resolve e) ∧
      (buildRecord resolve e).memory_mb = 0 := by
  intro resolve pre e post herr hmem hpost
  constructor
  · unfold refreshProcesses
    rw [refreshAux_append]
    simp only [refreshAux, herr]
    rw [refreshAux_lookup_skip resolve post _ hpost]
    exact dlookup_dinsert_self _ _ _
  · simp only [buildRecord]
    rcases hmem with h | h
    · simp [h]
    · cases hmr : e.memRaises
      · simp [h, hmr]
      · simp [hmr]

theorem C10_witness :
    dlookup 9 (refreshProcesses constResolve ([okEntry] ++ memErrEntry :: [okEntry2])) =
      some (buildRecord constResolve memErrEntry) ∧
    (buildRecord constResolve memErrEntry).memory_mb = 0 :=
  C10_memory_defaults_to_zero constResolve [okEntry] memErrEntry [okEntry2]
    rfl (Or.inl rfl) (by decide)
